import Mathlib

/-!
# Verification of the SAT-Solver core (DPLL and CDCL engines)

This file is a shallow embedding, in Lean 4, of the two decision procedures of
the SAT-Solver repository: the DPLL engine of `src/dpll_solver.py` and the CDCL
engine of `src/cdcl_solver.py`.  The Python classes become explicit state
records, mutation becomes state passing, and the `while` loops that are not
structurally recursive take an explicit fuel argument (a run that exhausts its
fuel returns `none`; a Python return value is always `some _`).

Modelling conventions, chosen once and used throughout:

* literals are `Int` (nonzero in well-formed inputs), variables are `Nat`
  (`Int.natAbs` plays the role of Python's `abs`);
* Python `dict`s that are only ever used as finite maps are association lists
  (`List (Nat × β)`), with first-match lookup; Python dict insertion appends;
* the CDCL assignment vector `self.assignment` (a Python list indexed by
  variable, entries `True`/`False`/`None`) is a `List (Option Bool)` with
  `List.getD`/`List.set` giving the Python indexing (in-range in every run
  considered here);
* Python floats (the VSIDS activities) are modelled as exact unnormalised
  fractions (`Flt` below); every float the
  solver manipulates in the runs studied below is an exact small rational and
  no claim settled here depends on rounding;
* wall-clock time is an oracle `clock : Nat → Flt`: the main loop's time check
  at iteration `k` reads `clock k`.  The `time` entry of the statistics
  dictionary is outside the model (no claim mentions it); the statistics
  records carry the counters only;
* Python set iteration over small-int sets (`_choose_variable`,
  `_find_pure_literals` in the DPLL engine) is modelled in a fixed
  deterministic order (ascending for `_choose_variable`, first-occurrence
  order of the variable for pure literals); for the pure-literal pass the
  final clause list and assignment map do not depend on the iteration order
  because distinct pure literals name distinct variables.
-/

namespace SatSolver

/-- Entry of the CDCL trail: Python's `(lit, decision_level, antecedent)`. -/
structure TEntry where
  lit : Int
  level : Nat
  ant : Option Nat
deriving DecidableEq, Repr

/-- First-match lookup in an association list, Python `d[k]` / `d.get(k)`. -/
def alGet (d : List (Nat × β)) (k : Nat) : Option β :=
  (d.find? (fun p => p.1 == k)).map (·.2)

/-- Python `k in d` for a dict modelled as an association list. -/
def alMem (d : List (Nat × β)) (k : Nat) : Bool :=
  (d.find? (fun p => p.1 == k)).isSome

/-- Python `d[k] = v`: update in place if present, append otherwise. -/
def alSet (d : List (Nat × β)) (k : Nat) (v : β) : List (Nat × β) :=
  match d with
  | [] => [(k, v)]
  | (k', v') :: rest =>
      if k' == k then (k, v) :: rest else (k', v') :: alSet rest k v

/-- Python `del d[k]` (no error if the key is absent). -/
def alDel (d : List (Nat × β)) (k : Nat) : List (Nat × β) :=
  match d with
  | [] => []
  | (k', v') :: rest => if k' == k then rest else (k', v') :: alDel rest k

/-! ## Executable rationals for Python's float-valued quantities

The VSIDS activities and the wall-clock values are Python floats.  They are
modelled as unnormalised fractions with `Int` arithmetic only (`Mathlib`'s `ℚ`
normalises through `Nat.gcd`, which the kernel cannot evaluate, and no claim
settled here depends on float rounding).  Every such value the solver builds
has a positive denominator — the inputs (`0.0`, `1.0`, `0.95`, `1e100`,
`1e-100`, clock samples) do, and the operations used preserve positivity
(division only ever by positive constants) — so the cross-multiplication
comparisons below agree with the rational order. -/

/-- An unnormalised fraction standing in for a Python float. -/
structure Flt where
  num : Int
  den : Int
deriving DecidableEq, Repr

/-- Embed an integer. -/
def Flt.ofInt (n : Int) : Flt := ⟨n, 1⟩

/-- Addition. -/
def Flt.add (a b : Flt) : Flt := ⟨a.num * b.den + b.num * a.den, a.den * b.den⟩

/-- Subtraction. -/
def Flt.sub (a b : Flt) : Flt := ⟨a.num * b.den - b.num * a.den, a.den * b.den⟩

/-- Multiplication. -/
def Flt.mul (a b : Flt) : Flt := ⟨a.num * b.num, a.den * b.den⟩

/-- Division (only ever applied with a positive divisor). -/
def Flt.div (a b : Flt) : Flt := ⟨a.num * b.den, a.den * b.num⟩

/-- Strict order, by cross multiplication (positive denominators). -/
def Flt.lt (a b : Flt) : Bool := a.num * b.den < b.num * a.den

/-- Non-strict order, by cross multiplication (positive denominators). -/
def Flt.le (a b : Flt) : Bool := a.num * b.den ≤ b.num * a.den

/-- Value equality (`2/2 = 1/1`), matching Python float `==`. -/
def Flt.eqv (a b : Flt) : Bool := a.num * b.den == b.num * a.den

/-- Python truthiness of a float: `0.0` is falsy. -/
def Flt.isZero (a : Flt) : Bool := a.num == 0

/-- The VSIDS rescale threshold `1e100`. -/
def fltBig : Flt := ⟨((10 ^ 100 : Nat) : Int), 1⟩

/-- The VSIDS rescale factor `1e-100`. -/
def fltSmall : Flt := ⟨1, ((10 ^ 100 : Nat) : Int)⟩

/-- The VSIDS decay constant `0.95`. -/
def fltDecay : Flt := ⟨19, 20⟩

/-! ## The DPLL engine (`src/dpll_solver.py`) -/

/-- Mutable state of a `DPLLSolver` during `solve`: the working clause list,
the assignment dict, and the counters (`num_vars` is never consulted by the
search itself). -/
structure DState where
  clauses : List (List Int)
  assignment : List (Nat × Bool)
  numDecisions : Nat
  numPropagations : Nat
  maxDepth : Nat
deriving Repr

/-- `DPLLSolver._find_unit_clauses`. -/
def findUnitClauses (clauses : List (List Int)) : List Int :=
  clauses.filterMap (fun c => match c with
    | [l] => some l
    | _ => none)

/-- `DPLLSolver._simplify_with_assignment`: drop satisfied clauses, delete the
falsified literal elsewhere. -/
def simplifyWith (s : DState) (var : Nat) (value : Bool) : DState :=
  let lit : Int := if value then (var : Int) else -(var : Int)
  let negLit := -lit
  { s with clauses := s.clauses.filterMap (fun c =>
      if lit ∈ c then none
      else if negLit ∈ c then some (c.filter (fun l => l ≠ negLit))
      else some c) }

/-- The `for lit in unit_clauses` body of `DPLLSolver._unit_propagate`;
returns `none` on conflict (Python `return False`), otherwise the updated
`changed` flag. -/
def processUnits (units : List Int) (s : DState) (changed : Bool) :
    Option Bool × DState :=
  match units with
  | [] => (some changed, s)
  | l :: rest =>
      let var := l.natAbs
      let value : Bool := l > 0
      match alGet s.assignment var with
      | some b =>
          if b ≠ value then (none, s) else processUnits rest s changed
      | none =>
          let s := { s with assignment := alSet s.assignment var value,
                            numPropagations := s.numPropagations + 1 }
          processUnits rest (simplifyWith s var value) true

/-- The `while changed` loop of `DPLLSolver._unit_propagate`.  Fuel bounds the
outer iterations; each continued iteration has freshly assigned a variable
occurring in the clause list, so `total literal count + 1` always suffices. -/
def upLoop : Nat → DState → Bool × DState
  | 0, s => (true, s)
  | fuel + 1, s =>
      let units := findUnitClauses s.clauses
      if units.isEmpty then (true, s)
      else
        match processUnits units s false with
        | (none, s') => (false, s')
        | (some changed, s') => if changed then upLoop fuel s' else (true, s')

/-- `DPLLSolver._unit_propagate` (with its internally sufficient fuel). -/
def unitPropagate (s : DState) : Bool × DState :=
  upLoop ((s.clauses.map List.length).sum + 1) s

/-- `DPLLSolver._find_pure_literals`: literal polarity counts per variable, in
first-occurrence order, then the pure ones among unassigned variables. -/
def findPureLiterals (s : DState) : List Int :=
  let counts : List (Nat × (Nat × Nat)) :=
    s.clauses.foldl (fun acc c =>
      c.foldl (fun (acc : List (Nat × (Nat × Nat))) (l : Int) =>
        let var := l.natAbs
        let (p, n) := (alGet acc var).getD (0, 0)
        if l > 0 then alSet acc var (p + 1, n) else alSet acc var (p, n + 1))
        acc) []
  counts.filterMap (fun (var, p, n) =>
    if alMem s.assignment var then none
    else if p > 0 && n == 0 then some (var : Int)
    else if n > 0 && p == 0 then some (-(var : Int))
    else none)

/-- `DPLLSolver._pure_literal_eliminate`. -/
def pureLiteralEliminate (s : DState) : DState :=
  (findPureLiterals s).foldl (fun s (l : Int) =>
    let var := l.natAbs
    if alMem s.assignment var then s
    else simplifyWith { s with assignment := alSet s.assignment var (l > 0) }
      var (l > 0)) s

/-- `DPLLSolver._all_clauses_satisfied`. -/
def allClausesSatisfied (s : DState) : Bool :=
  s.clauses.isEmpty

/-- `DPLLSolver._has_empty_clause`. -/
def hasEmptyClause (s : DState) : Bool :=
  s.clauses.any List.isEmpty

/-- `DPLLSolver._choose_variable`: some unassigned variable appearing in the
remaining clauses, `none` if all appearing variables are assigned.  Python
iterates a set of small ints; the model takes the smallest such variable. -/
def chooseVariable (s : DState) : Option Nat :=
  ((s.clauses.flatten.map Int.natAbs).filter
    (fun v => !alMem s.assignment v)).min?

/-- `DPLLSolver._dpll` with explicit recursion fuel and depth argument.
`DPLLSolver._try_assignment` — snapshot the clause list and assignment,
assign, simplify, recurse, and restore the snapshots on failure (the counters
are not snapshotted and keep their values) — is inlined at its two call
sites, once for `True` and once for `False`, to keep the recursion
structural. -/
def dpllRec : Nat → Nat → DState → Option (Bool × DState)
  | 0, _, _ => none
  | fuel + 1, depth, s =>
      let s := { s with maxDepth := max s.maxDepth depth }
      match unitPropagate s with
      | (false, s) => some (false, s)
      | (true, s) =>
          if allClausesSatisfied s then some (true, s)
          else if hasEmptyClause s then some (false, s)
          else
            let s := pureLiteralEliminate s
            if allClausesSatisfied s then some (true, s)
            else if hasEmptyClause s then some (false, s)
            else
              match chooseVariable s with
              | none => some (false, s)
              | some var =>
                  let s := { s with numDecisions := s.numDecisions + 1 }
                  let savedClauses := s.clauses
                  let savedAssignment := s.assignment
                  let s1 := simplifyWith
                    { s with assignment := alSet s.assignment var true }
                    var true
                  match dpllRec fuel (depth + 1) s1 with
                  | none => none
                  | some (true, s') => some (true, s')
                  | some (false, s') =>
                      let s := { s' with clauses := savedClauses,
                                         assignment := savedAssignment }
                      let s := { s with numDecisions := s.numDecisions + 1 }
                      let s1 := simplifyWith
                        { s with assignment := alSet s.assignment var false }
                        var false
                      match dpllRec fuel (depth + 1) s1 with
                      | none => none
                      | some (true, s') => some (true, s')
                      | some (false, s') =>
                          some (false, { s' with
                            clauses := savedClauses,
                            assignment := savedAssignment })

/-- Statistics returned by `DPLLSolver.solve` (counters only; the wall-clock
entry is outside the model). -/
structure DStats where
  decisions : Nat
  propagations : Nat
  maxDepth : Nat
deriving DecidableEq, Repr

/-- `DPLLSolver.solve` on `num_vars = n`, `clauses = cs`: verdict, satisfying
assignment (as the final assignment dict) when satisfiable, statistics. -/
def dpllSolve (n : Nat) (cs : List (List Int)) (fuel : Nat) :
    Option (Bool × Option (List (Nat × Bool)) × DStats) :=
  let _ := n
  let s0 : DState := { clauses := cs, assignment := [],
                       numDecisions := 0, numPropagations := 0, maxDepth := 0 }
  match dpllRec fuel 0 s0 with
  | none => none
  | some (true, s) =>
      some (true, some s.assignment,
        ⟨s.numDecisions, s.numPropagations, s.maxDepth⟩)
  | some (false, s) =>
      some (false, none, ⟨s.numDecisions, s.numPropagations, s.maxDepth⟩)

/-! ## The CDCL engine (`src/cdcl_solver.py`) -/

/-- Mutable state of a `CDCLSolver`, after `_init_data_structures` has run:
the clause database, watch lists, trail, assignment vector, VSIDS data, the
variable heap with its position index, the propagation head, and the
counters. -/
structure CState where
  numVars : Nat
  originalClauses : List (List Int)
  clauses : List (List Int)
  learnedClauses : List Nat
  clauseActivity : List Flt
  maxLearnedClauses : Nat
  watchList : List (Int × List Nat)
  trail : List TEntry
  trailLim : List Nat
  assignment : List (Option Bool)
  decisionLevel : Nat
  activity : List Flt
  activityInc : Flt
  varOrder : List Nat
  varPos : List (Nat × Nat)
  numDecisions : Nat
  numPropagations : Nat
  numConflicts : Nat
  numLearned : Nat
  numRestarts : Nat
  propagateHead : Nat
deriving Repr

/-- Watch-list lookup, `self.watch_list[lit]` (a `defaultdict(list)`). -/
def wlGet (w : List (Int × List Nat)) (l : Int) : List Nat :=
  ((w.find? (fun p => p.1 == l)).map (·.2)).getD []

/-- Append a clause index to a watch list (`self.watch_list[lit].append(i)`). -/
def wlAppend (w : List (Int × List Nat)) (l : Int) (i : Nat) :
    List (Int × List Nat) :=
  match w with
  | [] => [(l, [i])]
  | (l', b) :: rest =>
      if l' == l then (l, b ++ [i]) :: rest else (l', b) :: wlAppend rest l i

/-- Remove the first occurrence of a clause index from a watch list
(`self.watch_list[lit].remove(i)`; in the Python the element is present
whenever this is called). -/
def wlRemove (w : List (Int × List Nat)) (l : Int) (i : Nat) :
    List (Int × List Nat) :=
  w.map (fun p => if p.1 == l then (p.1, p.2.erase i) else p)

/-- `CDCLSolver._lit_value`. -/
def litValue (s : CState) (l : Int) : Option Bool :=
  match s.assignment.getD l.natAbs none with
  | none => none
  | some v => some (if l > 0 then v else !v)

/-- `CDCLSolver._var_level`: scan the trail front to back; `-1` when the
variable has no trail entry. -/
def varLevel (s : CState) (v : Nat) : Int :=
  match s.trail.find? (fun e => e.lit.natAbs == v) with
  | some e => (e.level : Int)
  | none => -1

/-- `CDCLSolver._get_antecedent`: antecedent of the first trail entry naming
the variable; `none` both for a missing entry and for a decision. -/
def getAntecedent (s : CState) (v : Nat) : Option Nat :=
  (s.trail.find? (fun e => e.lit.natAbs == v)).bind (·.ant)

/-! ### Variable-order heap -/

/-- The `while pos > 0` sift-up loop of `CDCLSolver._heap_decrease`; the
position strictly decreases, so fuel `pos + 1` always suffices. -/
def heapDecLoop : Nat → CState → Nat → Nat → CState
  | 0, s, _, _ => s
  | fuel + 1, s, v, pos =>
      if pos == 0 then s
      else
        let parent := (pos - 1) / 2
        if Flt.le (s.activity.getD v (Flt.ofInt 0))
            (s.activity.getD (s.varOrder.getD parent 0) (Flt.ofInt 0)) then s
        else
          let a := s.varOrder.getD pos 0
          let b := s.varOrder.getD parent 0
          let vo := (s.varOrder.set pos b).set parent a
          let vp := alSet (alSet s.varPos (vo.getD pos 0) pos)
            (vo.getD parent 0) parent
          heapDecLoop fuel { s with varOrder := vo, varPos := vp } v parent

/-- `CDCLSolver._heap_decrease`. -/
def heapDecrease (s : CState) (v : Nat) : CState :=
  match alGet s.varPos v with
  | none => s
  | some pos => heapDecLoop (pos + 1) s v pos

/-- `CDCLSolver._heap_insert`. -/
def heapInsert (s : CState) (v : Nat) : CState :=
  if alMem s.varPos v then s
  else
    let s := { s with varPos := alSet s.varPos v s.varOrder.length,
                      varOrder := s.varOrder ++ [v] }
    heapDecrease s v

/-- The percolate-down loop of `CDCLSolver._heap_percolate_down`; the position
strictly increases and stays below the heap size, so the heap size is always
enough fuel. -/
def heapPercLoop : Nat → CState → Nat → CState
  | 0, s, _ => s
  | fuel + 1, s, pos =>
      let size := s.varOrder.length
      let act (i : Nat) : Flt := s.activity.getD (s.varOrder.getD i 0) (Flt.ofInt 0)
      let left := 2 * pos + 1
      let right := 2 * pos + 2
      let largest := if left < size && Flt.lt (act pos) (act left) then left else pos
      let largest :=
        if right < size && Flt.lt (act largest) (act right) then right else largest
      if largest == pos then s
      else
        let a := s.varOrder.getD pos 0
        let b := s.varOrder.getD largest 0
        let vo := (s.varOrder.set pos b).set largest a
        let vp := alSet (alSet s.varPos (vo.getD pos 0) pos)
          (vo.getD largest 0) largest
        heapPercLoop fuel { s with varOrder := vo, varPos := vp } largest

/-- `CDCLSolver._heap_percolate_down` from position `pos`. -/
def heapPercolateDown (s : CState) (pos : Nat) : CState :=
  heapPercLoop s.varOrder.length s pos

/-- `CDCLSolver._heap_pop`. -/
def heapPop (s : CState) : Option Nat × CState :=
  match s.varOrder with
  | [] => (none, s)
  | v0 :: _ =>
      let last := s.varOrder.getLast!
      let vo := s.varOrder.dropLast
      let s := { s with varOrder := vo, varPos := alDel s.varPos v0 }
      if s.varOrder.isEmpty then (some v0, s)
      else
        let s := { s with varOrder := s.varOrder.set 0 last,
                          varPos := alSet s.varPos last 0 }
        (some v0, heapPercolateDown s 0)

/-- The retry loop of `CDCLSolver._choose_variable`: pop until an unassigned
variable appears; each pop shrinks the heap, so its size is enough fuel. -/
def chooseVarLoop : Nat → CState → Option Nat × CState
  | 0, s => (none, s)
  | fuel + 1, s =>
      if s.varOrder.isEmpty then (none, s)
      else
        match heapPop s with
        | (none, s) => (none, s)
        | (some v, s) =>
            if (s.assignment.getD v none).isNone then (some v, s)
            else chooseVarLoop fuel s

/-- `CDCLSolver._choose_variable`. -/
def cdclChooseVariable (s : CState) : Option Nat × CState :=
  chooseVarLoop (s.varOrder.length + 1) s

/-- `CDCLSolver._bump_activity`. -/
def bumpActivity (s : CState) (v : Nat) : CState :=
  let s := { s with
    activity := s.activity.set v
      (Flt.add (s.activity.getD v (Flt.ofInt 0)) s.activityInc) }
  let s :=
    if Flt.lt fltBig (s.activity.getD v (Flt.ofInt 0)) then
      { s with
        activity := (List.range s.activity.length).map (fun i =>
          if 1 ≤ i ∧ i ≤ s.numVars then
            Flt.mul (s.activity.getD i (Flt.ofInt 0)) fltSmall
          else s.activity.getD i (Flt.ofInt 0)),
        activityInc := Flt.mul s.activityInc fltSmall }
    else s
  if alMem s.varPos v then heapDecrease s v else s

/-- `CDCLSolver._decay_activities`: `activity_inc /= 0.95`. -/
def decayActivities (s : CState) : CState :=
  { s with activityInc := Flt.div s.activityInc fltDecay }

/-! ### Propagation -/

/-- Python truthiness of the optional "other watched literal". -/
def truthy : Option Int → Bool
  | none => false
  | some x => x ≠ 0

/-- Body of `for clause_idx in watch_list_copy` inside `CDCLSolver._propagate`:
resolve the watched pair, move the watch, propagate a unit, or report the
conflict (which aborts the whole propagation, as in the Python `return`). -/
def watchScan (copy : List Nat) (negLit : Int) (s : CState) :
    Option Nat × CState :=
  match copy with
  | [] => (none, s)
  | cidx :: rest =>
      let clause := s.clauses.getD cidx []
      let watchedIdx? : Option (Nat × Nat) :=
        if clause.getD 0 0 == negLit then some (0, 1)
        else if clause.getD 1 0 == negLit then some (1, 0)
        else none
      match watchedIdx? with
      | none => watchScan rest negLit s
      | some (watchedIdx, otherIdx) =>
          let otherWatched : Option Int :=
            if otherIdx < clause.length then some (clause.getD otherIdx 0)
            else none
          if truthy otherWatched &&
              litValue s (otherWatched.getD 0) == some true then
            watchScan rest negLit s
          else
            let newWatchIdx? := (List.range' 2 (clause.length - 2)).find?
              (fun i => litValue s (clause.getD i 0) ≠ some false)
            match newWatchIdx? with
            | some newIdx =>
                let a := clause.getD watchedIdx 0
                let b := clause.getD newIdx 0
                let clause' := (clause.set watchedIdx b).set newIdx a
                let s := { s with
                  clauses := s.clauses.set cidx clause',
                  watchList := wlAppend (wlRemove s.watchList negLit cidx)
                    (clause'.getD watchedIdx 0) cidx }
                watchScan rest negLit s
            | none =>
                if truthy otherWatched &&
                    litValue s (otherWatched.getD 0) == some false then
                  (some cidx, s)
                else if truthy otherWatched then
                  let ow := otherWatched.getD 0
                  let s := { s with
                    assignment := s.assignment.set ow.natAbs (some (ow > 0)),
                    trail := s.trail ++ [⟨ow, s.decisionLevel, some cidx⟩],
                    numPropagations := s.numPropagations + 1 }
                  watchScan rest negLit s
                else watchScan rest negLit s

/-- The `while self._propagate_head < len(self.trail)` loop of
`CDCLSolver._propagate`.  The head strictly increases and the trail can gain
at most one entry per unassigned variable, so `numVars + |trail| + 1` fuel
always suffices. -/
def propLoop : Nat → CState → Option Nat × CState
  | 0, s => (none, s)
  | fuel + 1, s =>
      if h : s.propagateHead < s.trail.length then
        let lit := (s.trail.get ⟨s.propagateHead, h⟩).lit
        let s := { s with propagateHead := s.propagateHead + 1 }
        let negLit := -lit
        match watchScan (wlGet s.watchList negLit) negLit s with
        | (some cidx, s) => (some cidx, s)
        | (none, s) => propLoop fuel s
      else (none, s)

/-- `CDCLSolver._propagate`: returns the conflict clause index, if any, and
the advanced state. -/
def cdclPropagate (s : CState) : Option Nat × CState :=
  propLoop (s.numVars + s.trail.length + 1) s

/-- The unit-clause scan of `CDCLSolver._initial_propagate` (the `for` loop
before the call to `_propagate`). -/
def initialUnits (cs : List (List Int)) (idx : Nat) (s : CState) :
    Option Nat × CState :=
  match cs with
  | [] => (none, s)
  | c :: rest =>
      match c with
      | [l] =>
          let var := l.natAbs
          let value : Bool := l > 0
          match s.assignment.getD var none with
          | none =>
              let s := { s with
                assignment := s.assignment.set var (some value),
                trail := s.trail ++ [⟨l, 0, some idx⟩],
                numPropagations := s.numPropagations + 1 }
              initialUnits rest (idx + 1) s
          | some b =>
              if b ≠ value then (some idx, s)
              else initialUnits rest (idx + 1) s
      | _ => initialUnits rest (idx + 1) s

/-- `CDCLSolver._initial_propagate`. -/
def initialPropagate (s : CState) : Option Nat × CState :=
  match initialUnits s.clauses 0 s with
  | (some cidx, s) => (some cidx, s)
  | (none, s) => cdclPropagate s

/-! ### Conflict analysis -/

/-- The `for lit in clause` state updates inside `CDCLSolver._analyze_conflict`:
mark unseen variables, count current-level ones, collect the negations of the
lower-level literals. -/
def processClauseLits (s : CState) (clause : List Int)
    (learned : List Int) (seen : List Bool) (counter : Int) :
    List Int × List Bool × Int :=
  clause.foldl (fun (acc : List Int × List Bool × Int) lit =>
    let (learned, seen, counter) := acc
    let var := lit.natAbs
    if !seen.getD var false && var > 0 then
      let seen := seen.set var true
      let lvl := varLevel s var
      if lvl == (s.decisionLevel : Int) then (learned, seen, counter + 1)
      else if lvl > 0 then (learned ++ [-lit], seen, counter)
      else (learned, seen, counter)
    else (learned, seen, counter)) (learned, seen, counter)

/-- The `while len(self.trail) > 0` walk-back inside
`CDCLSolver._analyze_conflict`, acting on the reversed trail: `p` is set to
each examined entry, unseen entries are popped. -/
def popSeen (seen : List Bool) : List TEntry → Option Int →
    List TEntry × Option Int
  | [], p => ([], p)
  | e :: rest, _ =>
      if seen.getD e.lit.natAbs false then (e :: rest, some e.lit)
      else popSeen seen rest (some e.lit)

/-- The exit path of `CDCLSolver._analyze_conflict` after the `while True`
loop breaks: append the UIP literal (`-p if p else 0`), compute the backtrack
level, bump the activity of every variable of the learned clause, and count
the clause as learned. -/
def analyzeFinish (s : CState) (learned : List Int) (p : Option Int) :
    List Int × Nat × CState :=
  let uip : Int := match p with
    | some q => if q ≠ 0 then -q else 0
    | none => 0
  let learned := learned ++ [uip]
  let backtrackLevel : Nat :=
    if learned.length == 1 then 0
    else
      (learned.dropLast.foldl (fun m lit => max m (varLevel s lit.natAbs))
        (0 : Int)).toNat
  let s := learned.foldl (fun s lit =>
    if lit.natAbs > 0 then bumpActivity s lit.natAbs else s) s
  (learned, backtrackLevel, { s with numLearned := s.numLearned + 1 })

/-- The `while True` loop of `CDCLSolver._analyze_conflict`.  This loop need
not terminate (the fuel is genuine): resolving on an implied literal `p`
re-processes `p`'s own antecedent clause, which contains `p` itself. -/
def analyzeLoop : Nat → CState → List Int → List Bool → Int → Option Int →
    List Int → Option (List Int × Nat × CState)
  | 0, _, _, _, _, _, _ => none
  | fuel + 1, s, learned, seen, counter, p, clause =>
      let (learned, seen, counter) :=
        processClauseLits s clause learned seen counter
      let (trailRev, p) := popSeen seen s.trail.reverse p
      let s := { s with trail := trailRev.reverse }
      if counter == 1 then some (analyzeFinish s learned p)
      else
        let counter := counter - 1
        let var := (p.getD 0).natAbs
        let seen := seen.set var false
        match getAntecedent s var with
        | none => some (analyzeFinish s learned p)
        | some aidx =>
            analyzeLoop fuel s learned seen counter p (s.clauses.getD aidx [])

/-- `CDCLSolver._analyze_conflict` on the conflict clause `cidx`: the learned
clause, the backtrack level, and the state (whose trail the analysis may have
popped). -/
def analyzeConflict (s : CState) (cidx : Nat) (fuel : Nat) :
    Option (List Int × Nat × CState) :=
  if s.decisionLevel == 0 then some ([], 0, s)
  else
    analyzeLoop fuel s [] (List.replicate (s.numVars + 1) false) 0 none
      (s.clauses.getD cidx [])

/-! ### Backtracking, learning, decisions -/

/-- `CDCLSolver._backtrack` to `level`. -/
def backtrack (s : CState) (level : Nat) : CState :=
  if level ≥ s.decisionLevel then s
  else if level < s.trailLim.length then
    let target := s.trailLim.getD level 0
    let popped := (s.trail.drop target).reverse
    let s := popped.foldl (fun s e =>
      heapInsert
        { s with assignment := s.assignment.set e.lit.natAbs none }
        e.lit.natAbs) s
    { s with trail := s.trail.take target,
             trailLim := s.trailLim.take level,
             decisionLevel := level,
             propagateHead := (s.trail.take target).length }
  else s

/-- `CDCLSolver._add_learned_clause`. -/
def addLearnedClause (s : CState) (clause : List Int) : CState :=
  if clause.isEmpty then s
  else
    let cidx := s.clauses.length
    let s := { s with
      clauses := s.clauses ++ [clause],
      learnedClauses := s.learnedClauses ++ [cidx],
      clauseActivity := s.clauseActivity ++ [Flt.ofInt 0] }
    let s := { s with watchList := wlAppend s.watchList (clause.getD 0 0) cidx }
    if clause.length ≥ 2 then
      { s with watchList := wlAppend s.watchList (clause.getD 1 0) cidx }
    else s

/-- `CDCLSolver._make_decision` (a no-op when the heap holds no unassigned
variable, exactly as in the source). -/
def makeDecision (s : CState) : CState :=
  match cdclChooseVariable s with
  | (none, s) => s
  | (some v, s) =>
      let lit : Int := (v : Int)
      let s := { s with decisionLevel := s.decisionLevel + 1,
                        trailLim := s.trailLim ++ [s.trail.length] }
      { s with assignment := s.assignment.set v (some true),
               trail := s.trail ++ [⟨lit, s.decisionLevel, none⟩],
               numDecisions := s.numDecisions + 1 }

/-- `CDCLSolver._restart`. -/
def restart (s : CState) : CState :=
  let s := backtrack s 0
  { s with numRestarts := s.numRestarts + 1 }

/-- `CDCLSolver._reduce_learned_clauses`: pair the live learned clauses with
their activities, sort descending (Python's tuple sort with `reverse=True`),
keep the top half, and delete the rest unless they are the antecedent of some
trail entry; deleted clauses are detached from the watch lists and replaced by
an empty placeholder. -/
def reduceLearnedClauses (s : CState) : CState :=
  let withActivity : List (Flt × Nat) := s.learnedClauses.filterMap (fun idx =>
    if s.originalClauses.length ≤ idx then
      let aidx := idx - s.originalClauses.length
      if aidx < s.clauseActivity.length then
        some (s.clauseActivity.getD aidx (Flt.ofInt 0), idx)
      else none
    else none)
  let sorted := withActivity.mergeSort (fun a b =>
    Flt.lt b.1 a.1 || (Flt.eqv a.1 b.1 && a.2 ≥ b.2))
  let keepCount := sorted.length / 2
  let toRemove : List Nat := (sorted.drop keepCount).filterMap (fun p =>
    let idx := p.2
    let isReason := s.trail.any (fun e => e.ant == some idx)
    if isReason then none else some idx)
  let s := toRemove.foldl (fun s cidx =>
    if cidx < s.clauses.length then
      let clause := s.clauses.getD cidx []
      let w := s.watchList
      let w :=
        if clause.length ≥ 1 && (wlGet w (clause.getD 0 0)).contains cidx
        then wlRemove w (clause.getD 0 0) cidx else w
      let w :=
        if clause.length ≥ 2 && (wlGet w (clause.getD 1 0)).contains cidx
        then wlRemove w (clause.getD 1 0) cidx else w
      { s with watchList := w, clauses := s.clauses.set cidx [] }
    else s) s
  { s with learnedClauses :=
      s.learnedClauses.filter (fun idx => !toRemove.contains idx) }

/-! ### The driver -/

/-- Statistics of `CDCLSolver._get_stats` (counters only; the wall-clock entry
is outside the model). -/
structure CStats where
  decisions : Nat
  propagations : Nat
  conflicts : Nat
  learned : Nat
  restarts : Nat
deriving DecidableEq, Repr

/-- Read the statistics counters out of a state. -/
def getStats (s : CState) : CStats :=
  ⟨s.numDecisions, s.numPropagations, s.numConflicts, s.numLearned,
    s.numRestarts⟩

/-- Result triple of `CDCLSolver.solve`: the verdict (`some true` = sat,
`some false` = unsat, `none` = the Python `None` returned on a deadline), the
assignment dict for the sat case, and the statistics. -/
def CResult : Type :=
  Option Bool × Option (List (Nat × Option Bool)) × CStats

instance : DecidableEq CResult := by
  unfold CResult
  infer_instance

/-- The assignment dict built at the sat return of `CDCLSolver.solve`. -/
def assignmentDict (s : CState) : List (Nat × Option Bool) :=
  (List.range' 1 s.numVars).map (fun v => (v, s.assignment.getD v none))

/-- Python truthiness of the optional time limit: `if time_limit and
(time.time() - start_time) > time_limit` — a limit of `0` never fires. -/
def timeoutChk (tl : Option Flt) (startTime now : Flt) : Bool :=
  match tl with
  | none => false
  | some t => !t.isZero && Flt.lt t (Flt.sub now startTime)

/-- The conflict-handling block of the main loop of `CDCLSolver.solve`, from
the backtrack to the restart check, applied to the output of
`_analyze_conflict`. -/
def conflictTail (r : List Int × Nat × CState) : CResult ⊕ CState :=
  let s := backtrack r.2.2 r.2.1
  let s := addLearnedClause s r.1
  let s := decayActivities s
  let s := if s.learnedClauses.length > s.maxLearnedClauses then
    reduceLearnedClauses s else s
  let s := if s.numConflicts % 100 == 0 then restart s else s
  .inr s

/-- One iteration of the main CDCL loop (the body of `while True` in
`CDCLSolver.solve` minus the time check): either a final result or the state
for the next iteration. -/
def cdclStep (analyzeFuel : Nat) (s : CState) : Option (CResult ⊕ CState) :=
  match cdclPropagate s with
  | (some cidx, s) =>
      let s := { s with numConflicts := s.numConflicts + 1 }
      if s.decisionLevel == 0 then some (.inl (some false, none, getStats s))
      else (analyzeConflict s cidx analyzeFuel).map conflictTail
  | (none, s) =>
      if s.trail.length == s.numVars then
        some (.inl (some true, some (assignmentDict s), getStats s))
      else some (.inr (makeDecision s))

/-- The `while True` loop of `CDCLSolver.solve`: time check, then one step. -/
def cdclLoop (startTime : Flt) (tl : Option Flt) (analyzeFuel : Nat) :
    Nat → (Nat → Flt) → CState → Option CResult
  | 0, _, _ => none
  | fuel + 1, clock, s =>
      if timeoutChk tl startTime (clock 0) then some (none, none, getStats s)
      else
        match cdclStep analyzeFuel s with
        | none => none
        | some (.inl r) => some r
        | some (.inr s) => cdclLoop startTime tl analyzeFuel fuel
            (fun k => clock (k + 1)) s

/-- `CDCLSolver.__init__` followed by `_init_data_structures`: note that the
constructor drops empty input clauses (`if clause`), so the later
`len(clause) == 0` check in `solve` can never fire. -/
def initState (n : Nat) (cs : List (List Int)) : CState :=
  let original := cs.filter (fun c => !c.isEmpty)
  let watches := (original.enum.foldl (fun w (p : Nat × List Int) =>
    let i := p.1
    let c := p.2
    let w := if c.length ≥ 1 then wlAppend w (c.getD 0 0) i else w
    if c.length ≥ 2 then wlAppend w (c.getD 1 0) i else w) [])
  let s : CState :=
    { numVars := n
      originalClauses := original
      clauses := original
      learnedClauses := []
      clauseActivity := []
      maxLearnedClauses := 1000
      watchList := watches
      trail := []
      trailLim := []
      assignment := List.replicate (n + 1) none
      decisionLevel := 0
      activity := List.replicate (n + 1) (Flt.ofInt 0)
      activityInc := Flt.ofInt 1
      varOrder := []
      varPos := []
      numDecisions := 0
      numPropagations := 0
      numConflicts := 0
      numLearned := 0
      numRestarts := 0
      propagateHead := 0 }
  (List.range' 1 n).foldl heapInsert s

/-- `CDCLSolver.solve` on `num_vars = n`, `clauses = cs`, optional time limit
`tl`, wall clock `clock` (`clock 0` is the start time, `clock (k+1)` the time
check of main-loop iteration `k`), and the two fuels.  `none` means the run
did not return within the fuel (including the analysis loop's genuine
divergence). -/
def cdclSolve (n : Nat) (cs : List (List Int)) (tl : Option Flt)
    (clock : Nat → Flt) (mainFuel analyzeFuel : Nat) : Option CResult :=
  let s := initState n cs
  if s.clauses.any List.isEmpty then some (some false, none, getStats s)
  else
    match initialPropagate s with
    | (some _, s) => some (some false, none, getStats s)
    | (none, s) =>
        cdclLoop (clock 0) tl analyzeFuel mainFuel (fun k => clock (k + 1)) s

/-! ## Specification-side predicates

These formalise the spec's vocabulary (satisfied clause, trail consistency)
and are used to state the claims; they are not part of the solver model. -/

/-- A literal is true under an assignment dict as returned by
`CDCLSolver.solve`. -/
def litTrueUnder (A : List (Nat × Option Bool)) (l : Int) : Bool :=
  match alGet A l.natAbs with
  | some (some b) => b == decide (l > 0)
  | _ => false

/-- A clause contains at least one literal satisfied by the assignment dict. -/
def clauseSatisfiedUnder (A : List (Nat × Option Bool)) (c : List Int) : Bool :=
  c.any (litTrueUnder A)

/-- A literal is true under a DPLL assignment dict. -/
def litTrueUnderD (A : List (Nat × Bool)) (l : Int) : Bool :=
  match alGet A l.natAbs with
  | some b => b == decide (l > 0)
  | none => false

/-- A clause contains at least one literal satisfied by a DPLL assignment. -/
def clauseSatisfiedUnderD (A : List (Nat × Bool)) (c : List Int) : Bool :=
  c.any (litTrueUnderD A)

/-- The trail-consistency invariant of spec §3: a variable is assigned iff
exactly one trail entry names it, with the value given by that entry's
literal (so in particular no variable has two trail entries). -/
def trailConsistent (s : CState) : Bool :=
  (List.range' 1 s.numVars).all (fun v =>
    match s.assignment.getD v none, s.trail.filter
        (fun e => e.lit.natAbs == v) with
    | none, [] => true
    | some b, [e] => decide (e.lit > 0) == b
    | _, _ => false)

/-- Number of literals of a clause that are not false under the current
assignment (a clause is unit when exactly one literal is non-false and that
literal is unassigned). -/
def nonFalseLits (s : CState) (c : List Int) : List Int :=
  c.filter (fun l => litValue s l ≠ some false)

/-- The occurrence of a variable in a clause list. -/
def occursIn (cs : List (List Int)) (v : Nat) : Prop :=
  ∃ c ∈ cs, ∃ l ∈ c, l.natAbs = v

/-- Invariant of the DPLL search relating a state to the original input
`cs₀`: every assigned variable occurs in `cs₀`, and every literal of the
working clause list occurs in `cs₀` (simplification only ever removes
literals and clauses). -/
def DInv (cs₀ : List (List Int)) (s : DState) : Prop :=
  (∀ p ∈ s.assignment, occursIn cs₀ p.1) ∧
  (∀ c ∈ s.clauses, ∀ l ∈ c, occursIn cs₀ l.natAbs)

/-! ## Concrete runs used by the claims

Each state below is reached by running the embedded solver; this is visible
from the definitions, which apply the solver's own transition functions. -/

/-- Extract the continuation state of a driver step (used only to name states
of concrete runs; the accompanying theorems prove the step really continues). -/
def nextState (r : Option (CResult ⊕ CState)) (dflt : CState) : CState :=
  match r with
  | some (.inr s) => s
  | _ => dflt

/-- The input on which conflict analysis diverges: deciding `x1` implies `x2`
and `x3`, and clause `¬x2 ∨ ¬x3` is then conflicting with two current-level
literals. -/
def c3Input : List (List Int) := [[-1, 2], [-1, 3], [-2, -3]]

/-- State entering the main loop on `c3Input`. -/
def c3S0 : CState := (initialPropagate (initState 3 c3Input)).2

/-- State after main-loop iteration 1 (no conflict; the decision `x1`). -/
def c3S1 : CState := makeDecision c3S0

/-- State after the propagation of iteration 2, which returns conflict
clause 2. -/
def c3S2 : CState := (cdclPropagate c3S1).2

/-- The state on which `_analyze_conflict` is invoked (the conflict counter
has been incremented). -/
def c3S2c : CState := { c3S2 with numConflicts := c3S2.numConflicts + 1 }

/-- The seen-vector of the analysis loop's recurrent state on `c3Input`
(variables 2 and 3 came from the conflict clause; 3 is cleared and re-marked
each iteration, shown here in its marked form). -/
def c3Seen : List Bool := [false, true, true, false]

/-- Input for the C5 run: the doubled literal makes `¬x1 ∨ ¬x1` conflicting
as soon as `x1` is decided, with a single current-level variable, so analysis
terminates and learns the unit clause `[-1]`. -/
def c5Input : List (List Int) := [[-1, -1]]

/-- State entering the main loop on `c5Input`. -/
def c5S0 : CState := (initialPropagate (initState 1 c5Input)).2

/-- State after iteration 1 (the decision `x1`). -/
def c5S1 : CState := makeDecision c5S0

/-- State at the next top-level boundary, after iteration 2 handled the
conflict: analysis, backtrack to level 0, learned clause added. -/
def c5S2 : CState := nextState (cdclStep 100 c5S1) c5S1

/-- Input for the C6/C7 run: deciding `x1` first implies `x2` (from
`¬x1 ∨ x2`) and then hits the conflicting doubled clause `¬x1 ∨ ¬x1`, so at
analysis time the trail has an entry (`x2`) above the 1-UIP. -/
def c67Input : List (List Int) := [[-1, 2], [-1, -1]]

/-- State entering the main loop on `c67Input`. -/
def c67S0 : CState := (initialPropagate (initState 2 c67Input)).2

/-- State after iteration 1 (the decision `x1`). -/
def c67S1 : CState := makeDecision c67S0

/-- State after the propagation of iteration 2 (assigns `x2`, then returns
conflict clause 1). -/
def c67S2 : CState := (cdclPropagate c67S1).2

/-- The state on which `_analyze_conflict` is invoked in the C6/C7 run. -/
def c67S2c : CState := { c67S2 with numConflicts := c67S2.numConflicts + 1 }

/-- State at the next top-level boundary after the conflict of the C6/C7 run
has been handled. -/
def c67S3 : CState := nextState (cdclStep 100 c67S1) c67S1


/-! # Theorems

First the supporting lemmas, then one theorem per claim (with its witness or
counterexample where required). -/

set_option maxRecDepth 20000

/-! ## Supporting lemmas for the DPLL invariant (claim C10) -/

theorem simpAux {lit negLit : Int} {c₀ c : List Int}
    (hf : (if lit ∈ c₀ then none
           else if negLit ∈ c₀ then some (c₀.filter (fun l => l ≠ negLit))
           else some c₀) = some c) :
    ∀ l ∈ c, l ∈ c₀ := by
  intro l hl
  by_cases h1 : lit ∈ c₀
  · simp [h1] at hf
  · by_cases h2 : negLit ∈ c₀
    · simp only [h1, h2, if_true, if_false, if_neg h1, if_pos h2] at hf
      injection hf with hf
      exact List.mem_of_mem_filter (hf ▸ hl)
    · simp only [if_neg h1, if_neg h2] at hf
      injection hf with hf
      exact hf ▸ hl

theorem simplifyWith_clauses {s : DState} {var : Nat} {value : Bool} :
    ∀ c ∈ (simplifyWith s var value).clauses, ∀ l ∈ c,
      ∃ c' ∈ s.clauses, l ∈ c' := by
  intro c hc l hl
  simp only [simplifyWith, List.mem_filterMap] at hc
  rcases hc with ⟨c₀, hc₀, hf⟩
  exact ⟨c₀, hc₀, simpAux hf l hl⟩

theorem mem_alSet {β : Type} {d : List (Nat × β)} {k : Nat} {v : β} :
    ∀ p ∈ alSet d k v, p = (k, v) ∨ p ∈ d := by
  induction d with
  | nil => intro p hp; simp [alSet] at hp; simp [hp]
  | cons q rest ih =>
      intro p hp
      simp only [alSet] at hp
      by_cases hq : q.1 == k
      · simp [hq] at hp
        rcases hp with h | h
        · exact Or.inl (by simp [h])
        · exact Or.inr (List.mem_cons_of_mem _ h)
      · simp [hq] at hp
        rcases hp with h | h
        · exact Or.inr (by simp [h])
        · rcases ih p h with h' | h'
          · exact Or.inl h'
          · exact Or.inr (List.mem_cons_of_mem _ h')

theorem simplifyWith_inv {cs₀ : List (List Int)} {s : DState} {var : Nat}
    {value : Bool} (h : DInv cs₀ s) : DInv cs₀ (simplifyWith s var value) := by
  refine ⟨h.1, ?_⟩
  intro c hc l hl
  rcases simplifyWith_clauses c hc l hl with ⟨c', hc', hl'⟩
  exact h.2 c' hc' l hl'

theorem processUnits_inv {cs₀ : List (List Int)} :
    ∀ (units : List Int) (s : DState) (ch : Bool), DInv cs₀ s →
      (∀ l ∈ units, occursIn cs₀ l.natAbs) →
      DInv cs₀ (processUnits units s ch).2 := by
  intro units
  induction units with
  | nil => intro s ch h _; exact h
  | cons l rest ih =>
      intro s ch h hu
      have hu' : ∀ l' ∈ rest, occursIn cs₀ l'.natAbs :=
        fun l' hl' => hu l' (List.mem_cons_of_mem _ hl')
      simp only [processUnits]
      cases hA : alGet s.assignment l.natAbs with
      | some b =>
          show DInv cs₀
            (if b ≠ decide (l > 0) then (none, s)
             else processUnits rest s ch).2
          by_cases hb : b ≠ decide (l > 0)
          · rw [if_pos hb]
            exact h
          · rw [if_neg hb]
            exact ih s ch h hu'
      | none =>
          refine ih _ _ ?_ hu'
          refine simplifyWith_inv ⟨?_, h.2⟩
          intro p hp
          rcases mem_alSet p hp with h' | h'
          · rw [h']; exact hu l (List.mem_cons_self _ _)
          · exact h.1 p h'

theorem findUnitClauses_occurs {cs₀ : List (List Int)} {s : DState}
    (h : DInv cs₀ s) : ∀ l ∈ findUnitClauses s.clauses, occursIn cs₀ l.natAbs := by
  intro l hl
  simp only [findUnitClauses, List.mem_filterMap] at hl
  rcases hl with ⟨c, hc, hf⟩
  match c, hf with
  | [l'], hf =>
      injection hf with hf
      exact hf ▸ h.2 [l'] hc l' (by simp)

theorem upLoop_inv {cs₀ : List (List Int)} :
    ∀ (fuel : Nat) (s : DState), DInv cs₀ s → DInv cs₀ (upLoop fuel s).2 := by
  intro fuel
  induction fuel with
  | zero => intro s h; exact h
  | succ f ih =>
      intro s h
      simp only [upLoop]
      split
      · exact h
      · have hp := processUnits_inv
          (findUnitClauses s.clauses) s false h (findUnitClauses_occurs h)
        rcases hr : processUnits (findUnitClauses s.clauses) s false with ⟨ob, s'⟩
        rw [hr] at hp
        cases ob with
        | none => exact hp
        | some changed =>
            show DInv cs₀ (if changed = true then upLoop f s' else (true, s')).2
            by_cases hch : changed = true
            · rw [if_pos hch]
              exact ih s' hp
            · rw [if_neg hch]
              exact hp

theorem unitPropagate_inv {cs₀ : List (List Int)} {s : DState}
    (h : DInv cs₀ s) : DInv cs₀ (unitPropagate s).2 :=
  upLoop_inv _ s h

theorem mem_alSet_key {β : Type} {d : List (Nat × β)} {k : Nat} {v : β} :
    ∀ p ∈ alSet d k v, p.1 = k ∨ ∃ q ∈ d, q.1 = p.1 := by
  intro p hp
  rcases mem_alSet p hp with h | h
  · exact Or.inl (by rw [h])
  · exact Or.inr ⟨p, h, rfl⟩

theorem countsInner_key :
    ∀ (c : List Int) (acc : List (Nat × (Nat × Nat))),
      ∀ p ∈ c.foldl (fun (acc : List (Nat × (Nat × Nat))) (l : Int) =>
        let var := l.natAbs
        let (pc, nc) := (alGet acc var).getD (0, 0)
        if l > 0 then alSet acc var (pc + 1, nc)
        else alSet acc var (pc, nc + 1)) acc,
      (∃ l ∈ c, l.natAbs = p.1) ∨ ∃ q ∈ acc, q.1 = p.1 := by
  intro c
  induction c with
  | nil => intro acc p hp; exact Or.inr ⟨p, hp, rfl⟩
  | cons l rest ih =>
      intro acc p hp
      rcases ih _ p hp with h | ⟨q, hq, hq1⟩
      · rcases h with ⟨l', hl', h'⟩
        exact Or.inl ⟨l', List.mem_cons_of_mem _ hl', h'⟩
      · have hk : q.1 = l.natAbs ∨ ∃ q' ∈ acc, q'.1 = q.1 := by
          by_cases hpos : l > 0
          · have hq' : q ∈ alSet acc l.natAbs
                (((alGet acc l.natAbs).getD (0, 0)).1 + 1,
                  ((alGet acc l.natAbs).getD (0, 0)).2) := by
              simpa [hpos] using hq
            exact mem_alSet_key q hq'
          · have hq' : q ∈ alSet acc l.natAbs
                (((alGet acc l.natAbs).getD (0, 0)).1,
                  ((alGet acc l.natAbs).getD (0, 0)).2 + 1) := by
              simpa [hpos] using hq
            exact mem_alSet_key q hq'
        rcases hk with h' | ⟨q', hq', hq1'⟩
        · exact Or.inl ⟨l, List.mem_cons_self _ _, by rw [← hq1, h']⟩
        · exact Or.inr ⟨q', hq', by rw [hq1', hq1]⟩

theorem countsOuter_key :
    ∀ (cls : List (List Int)) (acc : List (Nat × (Nat × Nat))),
      ∀ p ∈ cls.foldl (fun acc c =>
        c.foldl (fun (acc : List (Nat × (Nat × Nat))) (l : Int) =>
          let var := l.natAbs
          let (pc, nc) := (alGet acc var).getD (0, 0)
          if l > 0 then alSet acc var (pc + 1, nc)
          else alSet acc var (pc, nc + 1)) acc) acc,
      (∃ l ∈ cls.flatten, l.natAbs = p.1) ∨ ∃ q ∈ acc, q.1 = p.1 := by
  intro cls
  induction cls with
  | nil => intro acc p hp; exact Or.inr ⟨p, hp, rfl⟩
  | cons c rest ih =>
      intro acc p hp
      rcases ih _ p hp with ⟨l', hl', h'⟩ | ⟨q, hq, hq1⟩
      · refine Or.inl ⟨l', ?_, h'⟩
        simp only [List.flatten_cons, List.mem_append]
        exact Or.inr (by simpa using hl')
      · rcases countsInner_key c acc q hq with ⟨l', hl', h'⟩ | ⟨q', hq', hq1'⟩
        · refine Or.inl ⟨l', ?_, by rw [h', hq1]⟩
          simp only [List.flatten_cons, List.mem_append]
          exact Or.inl hl'
        · exact Or.inr ⟨q', hq', by rw [hq1', hq1]⟩

theorem findPureLiterals_occurs {cs₀ : List (List Int)} {s : DState}
    (h : DInv cs₀ s) : ∀ l ∈ findPureLiterals s, occursIn cs₀ l.natAbs := by
  intro l hl
  simp only [findPureLiterals, List.mem_filterMap] at hl
  rcases hl with ⟨⟨var, pc, nc⟩, hmem, hf⟩
  have hvar : occursIn cs₀ var := by
    have hkey : (∃ l' ∈ s.clauses.flatten, l'.natAbs = var) ∨
        ∃ q ∈ ([] : List (Nat × (Nat × Nat))), q.1 = var := by
      exact countsOuter_key s.clauses [] ⟨var, pc, nc⟩ hmem
    rcases hkey with ⟨l', hl', h'⟩ | ⟨q, hq, _⟩
    · rcases List.mem_flatten.mp hl' with ⟨c, hc, hlc⟩
      exact h' ▸ h.2 c hc l' hlc
    · simp at hq
  split at hf
  · exact absurd hf (by simp)
  · split at hf
    · injection hf with hf
      rw [← hf]
      simpa using hvar
    · split at hf
      · injection hf with hf
        rw [← hf]
        simpa using hvar
      · exact absurd hf (by simp)

theorem pureFold_inv {cs₀ : List (List Int)} :
    ∀ (L : List Int) (s : DState), DInv cs₀ s →
      (∀ l ∈ L, occursIn cs₀ l.natAbs) →
      DInv cs₀ (L.foldl (fun s (l : Int) =>
        let var := l.natAbs
        if alMem s.assignment var then s
        else simplifyWith
          { s with assignment := alSet s.assignment var (l > 0) }
          var (l > 0)) s) := by
  intro L
  induction L with
  | nil => intro s h _; exact h
  | cons l rest ih =>
      intro s h hL
      refine ih _ ?_ (fun l' hl' => hL l' (List.mem_cons_of_mem _ hl'))
      by_cases hm : alMem s.assignment l.natAbs
      · simpa [hm] using h
      · simp only [hm, if_false, Bool.false_eq_true]
        refine simplifyWith_inv ⟨?_, h.2⟩
        intro p hp
        rcases mem_alSet p hp with h' | h'
        · rw [h']; exact hL l (List.mem_cons_self _ _)
        · exact h.1 p h'

theorem pureLiteralEliminate_inv {cs₀ : List (List Int)} {s : DState}
    (h : DInv cs₀ s) : DInv cs₀ (pureLiteralEliminate s) :=
  pureFold_inv (findPureLiterals s) s h (findPureLiterals_occurs h)

theorem dpllRec_inv {cs₀ : List (List Int)} :
    ∀ (fuel depth : Nat) (s : DState) (r : Bool × DState),
      DInv cs₀ s → dpllRec fuel depth s = some r → DInv cs₀ r.2 := by
  intro fuel
  induction fuel with
  | zero => intro depth s r _ hr; exact absurd hr (by simp [dpllRec])
  | succ f ih =>
      intro depth s r h hr
      have h0 : DInv cs₀ { s with maxDepth := max s.maxDepth depth } := h
      simp only [dpllRec] at hr
      split at hr
      next s1 heq =>
        have h1 : DInv cs₀ s1 := by
          have := unitPropagate_inv h0; rwa [heq] at this
        injection hr with hr; subst hr; exact h1
      next s1 heq =>
        have h1 : DInv cs₀ s1 := by
          have := unitPropagate_inv h0; rwa [heq] at this
        split at hr
        · injection hr with hr; subst hr; exact h1
        · split at hr
          · injection hr with hr; subst hr; exact h1
          · have h2 : DInv cs₀ (pureLiteralEliminate s1) :=
              pureLiteralEliminate_inv h1
            split at hr
            · injection hr with hr; subst hr; exact h2
            · split at hr
              · injection hr with hr; subst hr; exact h2
              · split at hr
                next heqv =>
                  injection hr with hr; subst hr; exact h2
                next var heqv =>
                  have hocc : occursIn cs₀ var := by
                    have heqv' : (((pureLiteralEliminate s1).clauses.flatten.map
                        Int.natAbs).filter
                        (fun v => !alMem (pureLiteralEliminate s1).assignment
                          v)).min? = some var := heqv
                    have hmm := List.min?_mem (fun a b => min_choice a b) heqv'
                    rcases List.mem_filter.mp hmm with ⟨hmem, _⟩
                    rcases List.mem_map.mp hmem with ⟨l', hl', h'⟩
                    rcases List.mem_flatten.mp hl' with ⟨c, hc, hlc⟩
                    exact h' ▸ h2.2 c hc l' hlc
                  have hassign : ∀ (b : Bool) (d : List (Nat × Bool)),
                      (∀ p ∈ d, occursIn cs₀ p.1) →
                      ∀ p ∈ alSet d var b, occursIn cs₀ p.1 := by
                    intro b d hd p hp
                    rcases mem_alSet p hp with h' | h'
                    · rw [h']; exact hocc
                    · exact hd p h'
                  split at hr
                  next htry => exact absurd hr (by simp)
                  next s4 htry =>
                    injection hr with hr; subst hr
                    refine ih _ _ _ ?_ htry
                    exact simplifyWith_inv ⟨hassign true _ h2.1, h2.2⟩
                  next s4 htry =>
                    split at hr
                    next htry2 => exact absurd hr (by simp)
                    next s7 htry2 =>
                      injection hr with hr; subst hr
                      refine ih _ _ _ ?_ htry2
                      exact simplifyWith_inv ⟨hassign false _ h2.1, h2.2⟩
                    next s7 htry2 =>
                      injection hr with hr; subst hr
                      exact ⟨h2.1, h2.2⟩

theorem alMem_exists {β : Type} {d : List (Nat × β)} {k : Nat}
    (h : alMem d k = true) : ∃ b, (k, b) ∈ d := by
  simp only [alMem, Option.isSome_iff_exists] at h
  rcases h with ⟨p, hp⟩
  have hm := List.mem_of_find?_eq_some hp
  have hk := List.find?_some hp
  refine ⟨p.2, ?_⟩
  have : p.1 = k := by simpa using hk
  rw [← this]
  exact hm


/-! ## Claim C10 -/

/-- C10: when `DPLLSolver.solve` reports sat, the returned assignment dict is
partial — every variable it mentions occurs in some input clause, and a
variable occurring in no input clause (for example one appearing in no clause
at all) is absent from the dict rather than mapped to a default value. -/
theorem c10_dpll_assignment_only_occurring_vars (n : Nat)
    (cs : List (List Int)) (fuel : Nat) (A : List (Nat × Bool)) (st : DStats)
    (h : dpllSolve n cs fuel = some (true, some A, st)) :
    (∀ v b, (v, b) ∈ A → occursIn cs v) ∧
    (∀ v, ¬ occursIn cs v → alMem A v = false) := by
  have hkey : ∀ p ∈ A, occursIn cs p.1 := by
    rcases hrec : dpllRec fuel 0
        { clauses := cs, assignment := [], numDecisions := 0,
          numPropagations := 0, maxDepth := 0 } with _ | ⟨b, s'⟩
    · simp [dpllSolve, hrec] at h
    · have hinv : DInv cs s' := by
        refine dpllRec_inv fuel 0 _ (b, s') ⟨?_, ?_⟩ hrec
        · intro p hp; simp at hp
        · intro c hc l hl; exact ⟨c, hc, l, hl, rfl⟩
      cases b with
      | false => simp [dpllSolve, hrec] at h
      | true =>
          simp only [dpllSolve, hrec] at h
          injection h with h
          have hA : A = s'.assignment := by
            have := congrArg (fun x => x.2.1) h
            simpa using this.symm
          rw [hA]
          exact hinv.1
  constructor
  · intro v b hb; exact hkey (v, b) hb
  · intro v hv
    by_contra hne
    have : alMem A v = true := by
      cases hx : alMem A v with
      | true => rfl
      | false => exact absurd hx hne
    rcases alMem_exists this with ⟨b, hb⟩
    exact hv (hkey (v, b) hb)

/-- Witness for C10 at a concrete input: on `n = 2`, clauses `[[1]]`, the
solver reports sat with assignment `{1 ↦ true}`, and the theorem yields that
every variable of that dict occurs in the input (variable 2 is absent). -/
theorem c10_dpll_assignment_only_occurring_vars_witness :
    dpllSolve 2 [[1]] 5 = some (true, some [(1, true)], ⟨0, 1, 0⟩) ∧
    (∀ v b, (v, b) ∈ [(1, true)] → occursIn [[1]] v) := by
  refine ⟨rfl, ?_⟩
  exact (c10_dpll_assignment_only_occurring_vars 2 [[1]] 5 [(1, true)]
    ⟨0, 1, 0⟩ rfl).1

/-! ## Claims C1, C2, C4: the dropped empty clause

`CDCLSolver.__init__` keeps only the truthy clauses (`if clause`), so the
empty clause of the input `[[]]` never reaches the solver: the `solve`-time
check `any(len(clause) == 0 ...)` is dead code, and the driver reports sat
with the empty assignment.  The DPLL engine keeps the empty clause and
correctly reports unsat. -/

/-- C1: verdict soundness fails for the CDCL engine.  On input `[[]]` it
reports sat with the empty assignment, yet the input clause `[]` (a member of
the clause list) has no literal satisfied by that assignment. -/
theorem c1_cdcl_reports_sat_with_unsatisfied_empty_clause :
    cdclSolve 0 [[]] none (fun _ => Flt.ofInt 0) 10 10 =
      some (some true, some [], ⟨0, 0, 0, 0, 0⟩) ∧
    [] ∈ [([] : List Int)] ∧
    clauseSatisfiedUnder [] ([] : List Int) = false :=
  ⟨rfl, by simp, rfl⟩

/-- C2: the two engines disagree on the CNF `[[]]` (0 variables, one empty
clause): DPLL returns unsat, CDCL returns sat. -/
theorem c2_dpll_cdcl_verdicts_disagree_on_empty_clause :
    dpllSolve 0 [[]] 10 = some (false, none, ⟨0, 0, 0⟩) ∧
    cdclSolve 0 [[]] none (fun _ => Flt.ofInt 0) 10 10 =
      some (some true, some [], ⟨0, 0, 0, 0, 0⟩) :=
  ⟨rfl, rfl⟩

/-- C4: on the clause list `[[]]` the DPLL verdict is unsat as claimed, but
the CDCL verdict is sat, because the constructor silently dropped the empty
clause. -/
theorem c4_empty_clause_verdicts :
    (cdclSolve 0 [[]] none (fun _ => Flt.ofInt 0) 10 10).map Prod.fst =
      some (some true) ∧
    (dpllSolve 0 [[]] 10).map Prod.fst = some false :=
  ⟨rfl, rfl⟩

/-! ## Claim C3: divergence of conflict analysis

On `c3Input`, deciding `x1` propagates `x2` and `x3` and clause 2
(`¬x2 ∨ ¬x3`) becomes conflicting with two literals of the current level.
Resolving on the trail-top literal `p = 3` fetches `p`'s antecedent clause,
which contains `p` itself; `p` is then re-marked as seen and the level
counter re-incremented, so the loop returns to the same state forever.  The
lemmas below exhibit the loop's fixed point and lift it to `solve`. -/

/-- The analysis-loop state reached after two iterations on `c3Input` maps to
itself, so no amount of fuel makes the loop return. -/
theorem c3_analyzeLoop_fixed_point :
    ∀ g, analyzeLoop g c3S2c [] c3Seen 2 (some 3) [-1, 3] = none := by
  intro g
  induction g with
  | zero => rfl
  | succ g ih =>
      exact (rfl : analyzeLoop (g + 1) c3S2c [] c3Seen 2 (some 3) [-1, 3] =
        analyzeLoop g c3S2c [] c3Seen 2 (some 3) [-1, 3]).trans ih

/-- `_analyze_conflict` on the first conflict of the `c3Input` run returns
for no fuel value. -/
theorem c3_analyze_diverges (g : Nat) : analyzeConflict c3S2c 2 g = none := by
  match g with
  | 0 => rfl
  | 1 => rfl
  | g + 2 =>
      exact (rfl : analyzeConflict c3S2c 2 (g + 2) =
        analyzeLoop g c3S2c [] c3Seen 2 (some 3) [-1, 3]).trans
        (c3_analyzeLoop_fixed_point g)

/-- The second driver iteration of the `c3Input` run never produces a step
result, whatever the analysis fuel. -/
theorem c3_step_never_returns (aF : Nat) : cdclStep aF c3S1 = none := by
  show (analyzeConflict c3S2c 2 aF).map conflictTail = none
  rw [c3_analyze_diverges aF]
  rfl

/-- The driver loop started at `c3S1` never returns. -/
theorem c3_loop_never_returns (start : Flt) (ck : Nat → Flt) (m aF : Nat) :
    cdclLoop start none aF (m + 1) ck c3S1 = none := by
  show (match cdclStep aF c3S1 with
        | none => none
        | some (.inl r) => some r
        | some (.inr s) => cdclLoop start none aF m (fun k => ck (k + 1)) s) =
       none
  rw [c3_step_never_returns aF]

/-- C3: termination fails.  On the three-clause input `c3Input` (3 variables,
no empty clause, no time limit), `CDCLSolver.solve` returns no verdict for
any fuel — the embedded run is `none` for every main-loop and analysis fuel,
because `_analyze_conflict` cycles forever on the first conflict. -/
theorem c3_cdcl_never_returns_on_conflict_input (clock : Nat → Flt)
    (mainFuel analyzeFuel : Nat) :
    cdclSolve 3 c3Input none clock mainFuel analyzeFuel = none := by
  match mainFuel with
  | 0 => rfl
  | 1 => rfl
  | m + 2 =>
      have h1 : cdclSolve 3 c3Input none clock (m + 2) analyzeFuel =
          cdclLoop (clock 0) none analyzeFuel (m + 1)
            (fun k => clock (k + 2)) c3S1 := rfl
      rw [h1]
      exact c3_loop_never_returns _ _ m analyzeFuel

/-! ## Claim C5: the learned clause is not asserted

On `c5Input` the first conflict is handled (the doubled clause `¬x1 ∨ ¬x1`
gives a single current-level literal, so analysis terminates), the unit
clause `[-1]` is learned and the trail is rewound to level 0 — but
`_propagate` scans only trail entries past `_propagate_head`, which
`_backtrack` set to the end of the rewound trail, so the next propagation
call appends nothing at all. -/

/-- C5: after the conflict at level 1 in the `c5Input` run, the learned
clause `[-1]` has been added (clause index 1), it is unit under the current
assignment — its single literal, the asserting literal `-1`, is unassigned,
hence non-false — yet the next call to `_propagate` returns no conflict and
leaves the trail unchanged instead of appending the asserting literal. -/
theorem c5_learned_clause_unit_but_not_asserted :
    ∃ s', cdclStep 100 c5S1 = some (.inr s') ∧
      s'.clauses.getD 1 [] = [-1] ∧
      nonFalseLits s' (s'.clauses.getD 1 []) = [-1] ∧
      litValue s' (-1) = none ∧
      (cdclPropagate s').1 = none ∧
      (cdclPropagate s').2.trail = s'.trail :=
  ⟨c5S2, rfl, rfl, rfl, rfl, rfl, rfl⟩

/-! ## Claims C6 and C7: analysis pops the trail

On `c67Input`, the conflict is detected while the implied literal `x2` sits
above the eventual UIP `x1` on the trail.  The walk-back loop of
`_analyze_conflict` pops the unseen entry for `x2` from `self.trail` without
clearing `self.assignment[2]`, so analysis mutates the trail (C6) and the
next top-level driver state has `x2` assigned with no trail entry (C7). -/

/-- C6: `_analyze_conflict`, invoked at decision level 1 on the conflicting
clause 1 of the `c67Input` run, returns a state whose trail lost the entry
for `x2`: the trail after analysis differs from the trail before. -/
theorem c6_analysis_modifies_trail :
    ∃ res, analyzeConflict c67S2c 1 100 = some res ∧
      c67S2c.trail = [⟨1, 1, none⟩, ⟨2, 1, some 0⟩] ∧
      res.2.2.trail = [⟨1, 1, none⟩] ∧
      res.2.2.trail ≠ c67S2c.trail :=
  ⟨(analyzeConflict c67S2c 1 100).getD ([], 0, c67S2c), rfl, rfl, rfl,
    by decide⟩

/-- C7: the trail-consistency invariant fails at a top-level iteration of the
driver.  The state `c67S1` entering iteration 2 of the `c67Input` run is
consistent; the state the conflict handling passes to iteration 3 has
variable 2 assigned `true` while the trail is empty, so the assignment vector
is not the projection of the trail. -/
theorem c7_trail_consistency_violated :
    ∃ s', cdclStep 100 c67S1 = some (.inr s') ∧
      trailConsistent c67S1 = true ∧
      trailConsistent s' = false ∧
      s'.assignment.getD 2 none = some true ∧
      s'.trail = [] :=
  ⟨c67S3, rfl, rfl, rfl, rfl, rfl⟩

/-! ## Claim C8: determinism -/

/-- With no time limit the driver loop never reads the clock, so its result —
the verdict, the assignment and every statistics counter — is the same for
any two wall clocks and any start times. -/
theorem cdclLoop_no_limit_clock_irrelevant :
    ∀ (fuel : Nat) (s : CState) (aF : Nat) (st₁ st₂ : Flt)
      (c₁ c₂ : Nat → Flt),
      cdclLoop st₁ none aF fuel c₁ s = cdclLoop st₂ none aF fuel c₂ s := by
  intro fuel
  induction fuel with
  | zero => intros; rfl
  | succ f ih =>
      intro s aF st₁ st₂ c₁ c₂
      show (match cdclStep aF s with
            | none => none
            | some (.inl r) => some r
            | some (.inr s') =>
                cdclLoop st₁ none aF f (fun k => c₁ (k + 1)) s') =
           (match cdclStep aF s with
            | none => none
            | some (.inl r) => some r
            | some (.inr s') =>
                cdclLoop st₂ none aF f (fun k => c₂ (k + 1)) s')
      cases cdclStep aF s with
      | none => rfl
      | some r =>
          cases r with
          | inl res => rfl
          | inr s' => exact ih s' aF st₁ st₂ _ _

/-- C8 (amended): with no time limit, `CDCLSolver.solve` is a deterministic
function of the input — two runs that differ only in the wall clock return
identical verdicts, assignments and statistics counters.  (The DPLL engine
accepts no deadline and reads the clock only for the elapsed-time stat, which
is outside the counters the claim names.) -/
theorem c8_deterministic_modulo_clock_without_limit (n : Nat)
    (cs : List (List Int)) (mainFuel analyzeFuel : Nat) (c₁ c₂ : Nat → Flt) :
    cdclSolve n cs none c₁ mainFuel analyzeFuel =
      cdclSolve n cs none c₂ mainFuel analyzeFuel := by
  unfold cdclSolve
  simp only []
  split
  · rfl
  · split
    · rfl
    · exact cdclLoop_no_limit_clock_irrelevant mainFuel _ analyzeFuel _ _ _ _

/-- Counterexample to C8 as stated ("two runs of solve on identical input
produce bit-identical statistics"): on the identical input `n = 1`, no
clauses, time limit `1`, a run whose clock jumps past the deadline reports 0
decisions (unknown verdict) while a run whose clock stays at the start
reports 1 decision (sat). -/
theorem c8_counterexample_deadline_breaks_determinism :
    cdclSolve 1 [] (some (Flt.ofInt 1))
      (fun n => if n == 0 then Flt.ofInt 0 else Flt.ofInt 10) 10 10 =
      some (none, none, ⟨0, 0, 0, 0, 0⟩) ∧
    cdclSolve 1 [] (some (Flt.ofInt 1)) (fun _ => Flt.ofInt 0) 10 10 =
      some (some true, some [(1, some true)], ⟨1, 0, 0, 0, 0⟩) :=
  ⟨rfl, rfl⟩

/-! ## Claim C9: deadline handling -/

/-- C9 (amended): with a nonzero time limit, whenever the limit has been
exceeded at a main-loop iteration boundary, `solve` returns there with the
Python `None` verdict — distinct from both the sat verdict `some true` and
the unsat verdict `some false` — and the statistics accumulated so far. -/
theorem c9_nonzero_deadline_returns_unknown (start t : Flt)
    (aF fuel : Nat) (clock : Nat → Flt) (s : CState)
    (ht : t.isZero = false)
    (hc : Flt.lt t (Flt.sub (clock 0) start) = true) :
    cdclLoop start (some t) aF (fuel + 1) clock s =
      some (none, none, getStats s) ∧
    (none : Option Bool) ≠ some true ∧
    (none : Option Bool) ≠ some false := by
  refine ⟨?_, by simp, by simp⟩
  have hchk : timeoutChk (some t) start (clock 0) = true := by
    simp [timeoutChk, ht, hc]
  simp [cdclLoop, hchk]

/-- Witness for C9 at concrete values: limit `1`, clock at `10`, the state
entering the main loop of the `c5Input` run; the loop returns the unknown
verdict with that state's statistics. -/
theorem c9_nonzero_deadline_returns_unknown_witness :
    (Flt.ofInt 1).isZero = false ∧
    Flt.lt (Flt.ofInt 1) (Flt.sub (Flt.ofInt 10) (Flt.ofInt 0)) = true ∧
    cdclLoop (Flt.ofInt 0) (some (Flt.ofInt 1)) 5 1 (fun _ => Flt.ofInt 10)
      c5S0 = some (none, none, getStats c5S0) := by
  refine ⟨by decide, by decide, ?_⟩
  exact (c9_nonzero_deadline_returns_unknown (Flt.ofInt 0) (Flt.ofInt 1) 5 0
    (fun _ => Flt.ofInt 10) c5S0 (by decide) (by decide)).1

/-- Counterexample to C9 as stated: a time limit of `0` seconds is a time
limit, and with the clock at `100` it has been exceeded at the first
main-loop boundary, but `if time_limit and ...` treats `0.0` as "no limit",
so the run returns sat rather than the unknown verdict. -/
theorem c9_counterexample_zero_limit_ignored :
    cdclSolve 1 [] (some (Flt.ofInt 0))
      (fun n => if n == 0 then Flt.ofInt 0 else Flt.ofInt 100) 10 10 =
      some (some true, some [(1, some true)], ⟨1, 0, 0, 0, 0⟩) :=
  rfl


end SatSolver
